import Mathlib

/-!
# go-pagerduty: escalation policies, escalation rules and extensions

A shallow embedding of `escalation_policy.go` and `extension.go`.

* Go pointers that may be nil are `Option`s.
* A Go `error` is a value carrying its message text.
* A Go `map[string]V` is an association list with unique keys.
* A function that mutates through a pointer becomes a function returning the
  updated value.
* A call either returns its `(value, error)` pair or dies with a run-time panic.
-/

set_option autoImplicit false

namespace Pagerduty

/-! ## Go runtime values -/

/-- Go `error` value, identified by the text its `Error()` method yields. -/
structure GoError where
  msg : String
  deriving DecidableEq

/-- What a Go call returning `(*T, error)` does: it returns the pair, or panics. -/
inductive Outcome (α : Type) where
  | ret (value : Option α) (err : Option GoError)
  | panic (reason : String)
  deriving DecidableEq

/-- The run-time panic raised by reading through a nil pointer. -/
def nilDereference : String :=
  "runtime error: invalid memory address or nil pointer dereference"

/-- Go `map[string]V`. -/
abbrev GoMap (V : Type) := List (String × V)

/-- Go `v, ok := m[k]`. -/
def GoMap.get? {V : Type} : GoMap V → String → Option V
  | [], _ => none
  | (k', v) :: rest, k => if k' = k then some v else GoMap.get? rest k

/-- Go `m[k] = v`. -/
def GoMap.set {V : Type} : GoMap V → String → V → GoMap V
  | [], k, v => [(k, v)]
  | (k', v') :: rest, k, v =>
    if k' = k then (k, v) :: rest else (k', v') :: GoMap.set rest k v

/-! ## API object model -/

/-- Modelled from the spec: the `APIObject` declaration is not part of the
sources; the spec gives it as the identity reference `{id, type}`. -/
structure APIObject where
  ID : String := ""
  Type_ : String := ""
  deriving DecidableEq

/-- Modelled from the spec: the `APIReference` declaration is not part of the
sources; it is the reference by which a policy names its services and teams. -/
structure APIReference where
  ID : String := ""
  Type_ : String := ""
  deriving DecidableEq

/-- Modelled from the spec: the `APIListObject` declaration is not part of the
sources; the spec gives it as the pagination metadata (offset, limit, total
count, whether more pages remain). -/
structure APIListObject where
  Limit : Nat := 0
  Offset : Nat := 0
  More : Bool := false
  Total : Nat := 0
  deriving DecidableEq

/-! ## extension.go -/

structure ExtensionSchema where
  toAPIObject : APIObject := {}
  deriving DecidableEq

structure Extension where
  toAPIObject : APIObject := {}
  EndpointUrl : String := ""
  Name : String := ""
  ExtensionSchema : ExtensionSchema := {}
  ExtensionObjects : List APIObject := []
  deriving DecidableEq

/-- Go `func(*Extension)`: the update it performs on the pointee. -/
abbrev ExtensionOptFunc := Extension → Extension

/-- NewExtension builds an extension and applies the options in order; the resource type constant is declared outside the
sources and is taken as a parameter. -/
def NewExtension (ExtensionResourceType : String) (opts : List ExtensionOptFunc) :
    Extension :=
  let ext : Extension :=
    { toAPIObject := { Type_ := ExtensionResourceType }
      EndpointUrl := "PLACEHOLDER"
      Name := "PLACEHOLDER"
      ExtensionSchema := { toAPIObject := { Type_ := "PLACEHOLDER", ID := "PLACEHOLDER" } }
      ExtensionObjects := [] }
  opts.foldl (fun ext opt => opt ext) ext

/-- ExtensionWithService appends a reference to the service; the resource type constant is declared
outside the sources and is taken as a parameter. -/
def ExtensionWithService (ServiceResourceType : String) (serviceId : String) :
    ExtensionOptFunc :=
  fun extension =>
    let svcRef : APIObject := { ID := serviceId, Type_ := ServiceResourceType }
    { extension with ExtensionObjects := extension.ExtensionObjects ++ [svcRef] }

def ExtensionWithName (name : String) : ExtensionOptFunc :=
  fun extension => { extension with Name := name }

def ExtensionWithEndpoint (endpoint : String) : ExtensionOptFunc :=
  fun extension => { extension with EndpointUrl := endpoint }

/-- One builder option, by the constructor function that made it. -/
inductive BuilderStep where
  | withService (serviceId : String)
  | withName (name : String)
  | withEndpoint (endpoint : String)
  deriving DecidableEq

/-- The option function a builder step stands for. -/
def BuilderStep.toOpt (ServiceResourceType : String) : BuilderStep → ExtensionOptFunc
  | .withService s => ExtensionWithService ServiceResourceType s
  | .withName n => ExtensionWithName n
  | .withEndpoint u => ExtensionWithEndpoint u

/-- Arguments of the `ExtensionWithName` options of a list, in order. -/
def nameArgs : List BuilderStep → List String
  | [] => []
  | .withName n :: rest => n :: nameArgs rest
  | _ :: rest => nameArgs rest

/-- Arguments of the `ExtensionWithEndpoint` options of a list, in order. -/
def endpointArgs : List BuilderStep → List String
  | [] => []
  | .withEndpoint u :: rest => u :: endpointArgs rest
  | _ :: rest => endpointArgs rest

/-- Arguments of the `ExtensionWithService` options of a list, in order. -/
def serviceArgs : List BuilderStep → List String
  | [] => []
  | .withService s :: rest => s :: serviceArgs rest
  | _ :: rest => serviceArgs rest

/-! ## escalation_policy.go: records -/

def escPath : String := "/escalation_policies"

/-- EscalationRule is a rule for an escalation policy to trigger. -/
structure EscalationRule where
  ID : String := ""
  Delay : Nat := 0
  Targets : List APIObject := []
  deriving DecidableEq

/-- EscalationPolicy is a collection of escalation rules. -/
structure EscalationPolicy where
  toAPIObject : APIObject := {}
  Name : String := ""
  EscalationRules : List EscalationRule := []
  Services : List APIReference := []
  NumLoops : Nat := 0
  Teams : List APIReference := []
  Description : String := ""
  RepeatEnabled : Bool := false
  deriving DecidableEq

/-- The data structure returned from calling the ListEscalationPolicies endpoint. -/
structure ListEscalationPoliciesResponse where
  toAPIListObject : APIListObject := {}
  EscalationPolicies : List EscalationPolicy := []
  deriving DecidableEq

structure ListEscalationRulesResponse where
  toAPIListObject : APIListObject := {}
  EscalationRules : List EscalationRule := []
  deriving DecidableEq

/-- The data structure used when calling the ListEscalationPolicies endpoint. -/
structure ListEscalationPoliciesOptions where
  toAPIListObject : APIListObject := {}
  Query : String := ""
  UserIDs : List String := []
  TeamIDs : List String := []
  Includes : List String := []
  SortBy : String := ""
  deriving DecidableEq

/-- The data structure used when calling the GetEscalationRule endpoint. -/
structure GetEscalationRuleOptions where
  Includes : List String := []
  deriving DecidableEq

/-- The data structure used when calling the GetEscalationPolicy endpoint. -/
structure GetEscalationPolicyOptions where
  Includes : List String := []
  deriving DecidableEq

/-! ## The collaborators of escalation_policy.go

The HTTP transport, the generic resource client, the JSON decoder and the query
string package are declared outside the two source files. They are taken as
parameters: any function of the right shape may stand for them. -/

/-- The pointee of a `*http.Response`; `Body` is an interface value and may be
nil. -/
structure Response where
  StatusCode : Nat := 0
  Body : Option String := none
  deriving DecidableEq

/-- The `(resp, err)` pair a request hands back. -/
abbrev Reply := Option Response × Option GoError

/-- Request bodies built by this file: a map from root key to record. -/
inductive Payload where
  | policies (data : GoMap EscalationPolicy)
  | rules (data : GoMap EscalationRule)
  deriving DecidableEq

/-- The four verb primitives of the client: `get`, `post`, `put`, `delete`. -/
inductive Verb where
  | GET
  | POST
  | PUT
  | DELETE
  deriving DecidableEq

/-- One call of a verb primitive: which primitive, and the arguments it was
given. -/
structure Call where
  verb : Verb
  path : String
  payload : Option Payload := none
  headers : Option (GoMap String) := none
  deriving DecidableEq

/-- A value of the `Resource` interface, by its dynamic type: an
`EscalationPolicy`, or anything else (nil included). -/
inductive Resource where
  | escalationPolicy (p : EscalationPolicy)
  | other
  deriving DecidableEq

/-- The client as this file uses it. Its methods are declared outside the
sources and are parameters here: `transport` is what the four verb primitives
hand back for a call, the other fields are the generic resource operations; `ρ`
is the type of the request options (`ResourceRequestOptionFunc`). -/
structure Client (ρ : Type) where
  transport : Call → Reply
  ListResources : String → List ρ → Reply
  CreateResource : Resource → Resource × Option GoError
  GetResource : String → String → List ρ → Resource × Option GoError
  DeleteResource : String → String → Option GoError

/-- The verb primitive `c.get(path)`: the client answers a GET call. -/
def Client.get {ρ : Type} (c : Client ρ) (path : String) : Call × Reply :=
  let call : Call := { verb := .GET, path := path }
  (call, c.transport call)

/-- The verb primitive `c.post(path, payload)`: the client answers a POST call. -/
def Client.post {ρ : Type} (c : Client ρ) (path : String) (payload : Payload) :
    Call × Reply :=
  let call : Call := { verb := .POST, path := path, payload := some payload }
  (call, c.transport call)

/-- The verb primitive `c.put(path, payload, headers)`: the client answers a PUT
call. -/
def Client.put {ρ : Type} (c : Client ρ) (path : String) (payload : Payload)
    (headers : Option (GoMap String)) : Call × Reply :=
  let call : Call := { verb := .PUT, path := path, payload := some payload, headers := headers }
  (call, c.transport call)

/-- The verb primitive `c.delete(path)`: the client answers a DELETE call. -/
def Client.delete {ρ : Type} (c : Client ρ) (path : String) : Call × Reply :=
  let call : Call := { verb := .DELETE, path := path }
  (call, c.transport call)

/-- Go `deserialize(resp, &dest)`: the destination after the call and the error
returned. A failed decode may leave the destination partially filled. -/
abbrev Deserialize (α : Type) := Option Response → α → α × Option GoError

/-- The decoder at each of the four destination types this file decodes into. -/
structure Deserializer where
  rules : Deserialize (GoMap EscalationRule)
  policies : Deserialize (GoMap EscalationPolicy)
  listPolicies : Deserialize ListEscalationPoliciesResponse
  listRules : Deserialize ListEscalationRulesResponse

/-- Go `url.Values` as a sequence of `Add(key, value)` calls, oldest first. -/
abbrev UrlValues := List (String × String)

/-- The query string package as `GetEscalationRule` uses it: `query.Values(o)`
and `v.Encode()`. -/
structure QueryPackage where
  Values : Option GetEscalationRuleOptions → Except GoError UrlValues
  Encode : UrlValues → String

/-- What an operation did: the requests it issued through the verb primitives,
oldest first, and what it handed back. -/
structure Run (α : Type) where
  calls : List Call
  result : α
  deriving DecidableEq

/-! ## escalation_policy.go: operations -/

/-- Unwraps the rule stored under "escalation_rule". The client argument is not
used by the body and is left out. The deferred `resp.Body.Close()` has its
receiver evaluated on entry, before the error check. -/
def getEscalationRuleFromResponse (deserialize : Deserialize (GoMap EscalationRule))
    (resp : Option Response) (err : Option GoError) : Outcome EscalationRule :=
  -- defer resp.Body.Close(): the receiver is evaluated here
  match resp with
  | none => .panic nilDereference
  | some r =>
    match r.Body with
    | none => .panic nilDereference
    | some _ =>
      match err with
      | some err => .ret none (some err)
      | none =>
        let target : GoMap EscalationRule := []
        match deserialize resp target with
        | (_, some dErr) =>
          .ret none (some ⟨"Could not decode JSON response: " ++ dErr.msg⟩)
        | (target, none) =>
          let rootNode := "escalation_rule"
          match target.get? rootNode with
          | none => .ret none (some ⟨"JSON response does not have " ++ rootNode ++ " field"⟩)
          | some t => .ret (some t) none

/-- Unwraps the policy stored under "escalation_policy". The client argument is
not used by the body and is left out. The deferred `resp.Body.Close()` has its
receiver evaluated on entry, before the error check. -/
def getEscalationPolicyFromResponse (deserialize : Deserialize (GoMap EscalationPolicy))
    (resp : Option Response) (err : Option GoError) : Outcome EscalationPolicy :=
  -- defer resp.Body.Close(): the receiver is evaluated here
  match resp with
  | none => .panic nilDereference
  | some r =>
    match r.Body with
    | none => .panic nilDereference
    | some _ =>
      match err with
      | some err => .ret none (some err)
      | none =>
        let target : GoMap EscalationPolicy := []
        match deserialize resp target with
        | (_, some dErr) =>
          .ret none (some ⟨"Could not decode JSON response: " ++ dErr.msg⟩)
        | (target, none) =>
          let rootNode := "escalation_policy"
          match target.get? rootNode with
          | none => .ret none (some ⟨"JSON response does not have " ++ rootNode ++ " field"⟩)
          | some t => .ret (some t) none

/-- ListEscalationPolicies lists all of the existing escalation policies. -/
def ListEscalationPolicies {ρ : Type} (EscalationPolicyResourceType : String)
    (deserialize : Deserializer) (c : Client ρ) (opts : List ρ) :
    Outcome ListEscalationPoliciesResponse :=
  match c.ListResources EscalationPolicyResourceType opts with
  | (_, some err) => .ret none (some err)
  | (resp, none) =>
    let result : ListEscalationPoliciesResponse := {}
    let decoded := deserialize.listPolicies resp result
    .ret (some decoded.1) decoded.2

/-- CreateEscalationPolicy creates a new escalation policy. -/
def CreateEscalationPolicy {ρ : Type} (c : Client ρ) (e : EscalationPolicy) :
    Outcome EscalationPolicy :=
  match c.CreateResource (.escalationPolicy e) with
  | (_, some err) => .ret none (some err)
  | (.escalationPolicy escPol, none) => .ret (some escPol) none
  | (.other, none) => .panic "interface conversion: Resource is not EscalationPolicy"

/-- DeleteEscalationPolicy deletes an existing escalation policy and rules. -/
def DeleteEscalationPolicy {ρ : Type} (EscalationPolicyResourceType : String)
    (c : Client ρ) (id : String) : Option GoError :=
  c.DeleteResource EscalationPolicyResourceType id

/-- GetEscalationPolicy gets information about an existing escalation policy and
its rules. -/
def GetEscalationPolicy {ρ : Type} (EscalationPolicyResourceType : String)
    (c : Client ρ) (id : String) (opts : List ρ) : Outcome EscalationPolicy :=
  match c.GetResource EscalationPolicyResourceType id opts with
  | (_, some err) => .ret none (some err)
  | (.escalationPolicy escPol, none) => .ret (some escPol) none
  | (.other, none) => .panic "interface conversion: Resource is not EscalationPolicy"

/-- UpdateEscalationPolicy updates an existing escalation policy and its rules. -/
def UpdateEscalationPolicy {ρ : Type} (deserialize : Deserializer) (c : Client ρ)
    (id : String) (e : Option EscalationPolicy) : Run (Outcome EscalationPolicy) :=
  match e with
  | none => { calls := [], result := .panic nilDereference }
  | some e =>
    let data : GoMap EscalationPolicy := GoMap.set [] "escalation_policy" e
    let sent := c.put (escPath ++ "/" ++ id) (.policies data) none
    { calls := [sent.1]
      result := getEscalationPolicyFromResponse deserialize.policies sent.2.1 sent.2.2 }

/-- CreateEscalationRule creates a new escalation rule for an escalation policy
and appends it to the end of the existing escalation rules. -/
def CreateEscalationRule {ρ : Type} (deserialize : Deserializer) (c : Client ρ)
    (escID : String) (e : EscalationRule) : Run (Outcome EscalationRule) :=
  let data : GoMap EscalationRule := GoMap.set [] "escalation_rule" e
  let sent := c.post (escPath ++ "/" ++ escID ++ "/escalation_rules") (.rules data)
  { calls := [sent.1]
    result := getEscalationRuleFromResponse deserialize.rules sent.2.1 sent.2.2 }

/-- GetEscalationRule gets information about an existing escalation rule. -/
def GetEscalationRule {ρ : Type} (query : QueryPackage) (deserialize : Deserializer)
    (c : Client ρ) (escID : String) (id : String) (o : Option GetEscalationRuleOptions) :
    Run (Outcome EscalationRule) :=
  match query.Values o with
  | .error err => { calls := [], result := .ret none (some err) }
  | .ok v =>
    let sent := c.get (escPath ++ "/" ++ escID ++ "/escalation_rules/" ++ id ++ "?" ++
      query.Encode v)
    { calls := [sent.1]
      result := getEscalationRuleFromResponse deserialize.rules sent.2.1 sent.2.2 }

/-- DeleteEscalationRule deletes an existing escalation rule. -/
def DeleteEscalationRule {ρ : Type} (c : Client ρ) (escID : String) (id : String) :
    Run (Option GoError) :=
  let sent := c.delete (escPath ++ "/" ++ escID ++ "/escalation_rules/" ++ id)
  { calls := [sent.1], result := sent.2.2 }

/-- UpdateEscalationRule updates an existing escalation rule. -/
def UpdateEscalationRule {ρ : Type} (deserialize : Deserializer) (c : Client ρ)
    (escID : String) (id : String) (e : Option EscalationRule) :
    Run (Outcome EscalationRule) :=
  match e with
  | none => { calls := [], result := .panic nilDereference }
  | some e =>
    let data : GoMap EscalationRule := GoMap.set [] "escalation_rule" e
    let sent := c.put (escPath ++ "/" ++ escID ++ "/escalation_rules/" ++ id) (.rules data) none
    { calls := [sent.1]
      result := getEscalationRuleFromResponse deserialize.rules sent.2.1 sent.2.2 }

/-- ListEscalationRules lists all of the escalation rules for an existing
escalation policy. -/
def ListEscalationRules {ρ : Type} (deserialize : Deserializer) (c : Client ρ)
    (escID : String) : Run (Outcome ListEscalationRulesResponse) :=
  let sent := c.get (escPath ++ "/" ++ escID ++ "/escalation_rules")
  match sent.2 with
  | (_, some err) => { calls := [sent.1], result := .ret none (some err) }
  | (resp, none) =>
    let result : ListEscalationRulesResponse := {}
    let decoded := deserialize.listRules resp result
    { calls := [sent.1], result := .ret (some decoded.1) decoded.2 }

/-- The outcome is all-or-nothing: a value and no error, or an error and no
value. -/
def Outcome.atomic {α : Type} : Outcome α → Prop
  | .ret (some _) none => True
  | .ret none (some _) => True
  | .ret _ _ => False
  | .panic _ => False

instance {α : Type} (o : Outcome α) : Decidable o.atomic := by
  unfold Outcome.atomic
  split <;> infer_instance

/-! ## Query string encoding

The option records are encoded by `query.Values` driven by their `url` struct
tags, and the result is written out by `Values.Encode`. Neither function is
part of the sources. -/

/-- The kinds of field the option records have. -/
inductive FieldValue where
  | str (s : String)
  | strs (xs : List String)
  | uint (n : Nat)
  | bool (b : Bool)
  deriving DecidableEq

/-- One struct field as the encoder sees it: the text of its `url` tag and its
value. -/
structure UrlField where
  tag : String
  value : FieldValue
  deriving DecidableEq

/-- Modelled from the spec: the `url` tags of `APIListObject` are not part of
the sources; the pagination options are elided when empty like every other
option. -/
def APIListObject.urlFields (o : APIListObject) : List UrlField :=
  [ ⟨"limit,omitempty", .uint o.Limit⟩,
    ⟨"offset,omitempty", .uint o.Offset⟩,
    ⟨"more,omitempty", .bool o.More⟩,
    ⟨"total,omitempty", .uint o.Total⟩ ]

/-- The fields of `ListEscalationPoliciesOptions` with their `url` tags; the
fields of the embedded struct come after the struct's own. -/
def ListEscalationPoliciesOptions.urlFields (o : ListEscalationPoliciesOptions) :
    List UrlField :=
  [ ⟨"query,omitempty", .str o.Query⟩,
    ⟨"user_ids,omitempty,brackets", .strs o.UserIDs⟩,
    ⟨"team_ids,omitempty,brackets", .strs o.TeamIDs⟩,
    ⟨"include,omitempty,brackets", .strs o.Includes⟩,
    ⟨"sort_by,omitempty", .str o.SortBy⟩ ] ++ o.toAPIListObject.urlFields

/-- The fields of `GetEscalationRuleOptions` with their `url` tags. -/
def GetEscalationRuleOptions.urlFields (o : GetEscalationRuleOptions) : List UrlField :=
  [ ⟨"include,omitempty,brackets", .strs o.Includes⟩ ]

/-- The fields of `GetEscalationPolicyOptions` with their `url` tags. -/
def GetEscalationPolicyOptions.urlFields (o : GetEscalationPolicyOptions) : List UrlField :=
  [ ⟨"include,omitempty,brackets", .strs o.Includes⟩ ]

/-- Split a tag at its commas. -/
def splitComma : List Char → List (List Char)
  | [] => [[]]
  | c :: cs =>
    if c = ',' then [] :: splitComma cs
    else
      match splitComma cs with
      | [] => [[c]]
      | w :: ws => (c :: w) :: ws

/-- Modelled from the spec: tag parsing of the option encoder is not part of
the sources; a tag is the parameter name followed by comma-separated flags. -/
def parseTag (tag : String) : String × List String :=
  match splitComma tag.data with
  | [] => ("", [])
  | name :: opts => (String.mk name, opts.map String.mk)

/-- Modelled from the spec: emptiness of an option ("omitted/empty options are
elided") is not part of the sources; empty is the zero value of the field. -/
def FieldValue.isEmpty : FieldValue → Bool
  | .str s => s = ""
  | .strs xs => xs.isEmpty
  | .uint n => n = 0
  | .bool b => !b

/-- Modelled from the spec: the text of a scalar option value is not part of
the sources. -/
def FieldValue.valueString : FieldValue → String
  | .str s => s
  | .strs _ => ""
  | .uint n => toString n
  | .bool b => if b then "true" else "false"

/-- Modelled from the spec: the per-field step of the option encoder is not
part of the sources. A field flagged `omitempty` is elided when empty; a
multi-valued field flagged `brackets` adds one parameter per element under the
key `name[]`; any other field adds one parameter under its name. -/
def fieldValues (f : UrlField) : UrlValues :=
  let parsed := parseTag f.tag
  if "omitempty" ∈ parsed.2 ∧ f.value.isEmpty = true then []
  else
    match f.value with
    | .strs xs =>
      let name := if "brackets" ∈ parsed.2 then parsed.1 ++ "[]" else parsed.1
      xs.map (fun x => (name, x))
    | v => [(parsed.1, v.valueString)]

/-- Modelled from the spec: the option encoder `query.Values` is not part of
the sources; it visits the fields in order. -/
def queryValues : List UrlField → UrlValues
  | [] => []
  | f :: rest => fieldValues f ++ queryValues rest

/-- Upper-case hexadecimal digit. -/
def upperhex (n : Nat) : Char :=
  ['0', '1', '2', '3', '4', '5', '6', '7', '8', '9', 'A', 'B', 'C', 'D', 'E', 'F'].getD n '0'

/-- The UTF-8 bytes of a character. -/
def utf8Bytes (c : Char) : List Nat :=
  let n := c.toNat
  if n < 0x80 then [n]
  else if n < 0x800 then [0xC0 + n / 64, 0x80 + n % 64]
  else if n < 0x10000 then [0xE0 + n / 4096, 0x80 + n / 64 % 64, 0x80 + n % 64]
  else [0xF0 + n / 262144, 0x80 + n / 4096 % 64, 0x80 + n / 64 % 64, 0x80 + n % 64]

/-- Percent-encoding of one character of a query component. -/
def escapeChar (c : Char) : List Char :=
  if c.isAlphanum || c = '-' || c = '_' || c = '.' || c = '~' then [c]
  else if c = ' ' then ['+']
  else (utf8Bytes c).foldr (fun b acc => '%' :: upperhex (b / 16) :: upperhex (b % 16) :: acc) []

/-- Modelled from the spec: percent-encoding of keys and values
(`team_ids[]` is written `team_ids%5B%5D`) is not part of the sources. -/
def QueryEscape (s : String) : String :=
  String.mk (s.data.foldr (fun c acc => escapeChar c ++ acc) [])

/-- Strict lexicographic order on keys. -/
def keyLT : List Char → List Char → Bool
  | _, [] => false
  | [], _ :: _ => true
  | a :: as, b :: bs => a.toNat < b.toNat || (a.toNat = b.toNat && keyLT as bs)

/-- Insert a parameter after every parameter whose key is not larger. -/
def insertByKey (p : String × String) : UrlValues → UrlValues
  | [] => [p]
  | q :: rest =>
    if keyLT p.1.data q.1.data then p :: q :: rest else q :: insertByKey p rest

/-- Parameters grouped by key in ascending key order, each key's values in the
order they were added. -/
def sortByKey (v : UrlValues) : UrlValues :=
  v.foldl (fun acc p => insertByKey p acc) []

/-- Keys never decrease along the list. -/
def KeySorted (v : UrlValues) : Prop :=
  v.Pairwise (fun x y => keyLT y.1.data x.1.data = false)

/-- Join the pieces with `&`. -/
def joinAmp : List String → String
  | [] => ""
  | [s] => s
  | s :: rest => s ++ "&" ++ joinAmp rest

/-- Modelled from the spec: `Values.Encode` is not part of the sources; the
parameters are written `key=value`, percent-encoded, joined with `&`, keys in
ascending order. -/
def Encode (v : UrlValues) : String :=
  joinAmp ((sortByKey v).map (fun p => QueryEscape p.1 ++ "=" ++ QueryEscape p.2))

/-- Modelled from the spec: the query string package is not part of the
sources; a nil options pointer encodes to no parameters. -/
def query : QueryPackage :=
  { Values := fun o =>
      match o with
      | none => .ok []
      | some o => .ok (queryValues o.urlFields)
    Encode := Encode }

/-! ## Sample collaborators -/

/-- A decoder for which every body is malformed JSON; the list destinations are
left as they were. -/
def rejectingDeserializer : Deserializer :=
  { rules := fun _ dest => (dest, some ⟨"unexpected end of JSON input"⟩)
    policies := fun _ dest => (dest, some ⟨"unexpected end of JSON input"⟩)
    listPolicies := fun _ dest =>
      (dest, some ⟨"unexpected end of JSON input"⟩)
    listRules := fun _ dest =>
      (dest, some ⟨"unexpected end of JSON input"⟩) }

/-- A client whose every request is answered with status 200 and the given
body, and whose generic resource calls hand back the given policy. -/
def answeringClient (body : String) (p : EscalationPolicy) : Client Unit :=
  { transport := fun _ => (some { StatusCode := 200, Body := some body }, none)
    ListResources := fun _ _ => (some { StatusCode := 200, Body := some body }, none)
    CreateResource := fun _ => (.escalationPolicy p, none)
    GetResource := fun _ _ _ => (.escalationPolicy p, none)
    DeleteResource := fun _ _ => none }

/-- A client whose every request fails in the transport: no response, and the
given error. -/
def unreachableClient (err : GoError) : Client Unit :=
  { transport := fun _ => (none, some err)
    ListResources := fun _ _ => (none, some err)
    CreateResource := fun _ => (.other, some err)
    GetResource := fun _ _ _ => (.other, some err)
    DeleteResource := fun _ _ => some err }

/-! # Theorems -/

/-! ## Extension builder -/

/-- Running the option loop of `NewExtension` from any extension: the name. -/
theorem foldl_steps_Name (T : String) (steps : List BuilderStep) (x : Extension) :
    ((steps.map (BuilderStep.toOpt T)).foldl (fun ext opt => opt ext) x).Name =
      (nameArgs steps).getLast?.getD x.Name := by
  induction steps generalizing x with
  | nil => rfl
  | cons s rest ih =>
    cases s <;>
      simp [List.map_cons, List.foldl_cons, ih, nameArgs, BuilderStep.toOpt,
        ExtensionWithService, ExtensionWithName, ExtensionWithEndpoint, List.getLast?_cons]

/-- Running the option loop of `NewExtension` from any extension: the endpoint. -/
theorem foldl_steps_EndpointUrl (T : String) (steps : List BuilderStep) (x : Extension) :
    ((steps.map (BuilderStep.toOpt T)).foldl (fun ext opt => opt ext) x).EndpointUrl =
      (endpointArgs steps).getLast?.getD x.EndpointUrl := by
  induction steps generalizing x with
  | nil => rfl
  | cons s rest ih =>
    cases s <;>
      simp [List.map_cons, List.foldl_cons, ih, endpointArgs, BuilderStep.toOpt,
        ExtensionWithService, ExtensionWithName, ExtensionWithEndpoint, List.getLast?_cons]

/-- Running the option loop of `NewExtension` from any extension: the attached
objects. -/
theorem foldl_steps_ExtensionObjects (T : String) (steps : List BuilderStep)
    (x : Extension) :
    ((steps.map (BuilderStep.toOpt T)).foldl (fun ext opt => opt ext) x).ExtensionObjects =
      x.ExtensionObjects ++
        (serviceArgs steps).map (fun s => ({ ID := s, Type_ := T } : APIObject)) := by
  induction steps generalizing x with
  | nil => simp [serviceArgs]
  | cons s rest ih =>
    cases s <;>
      simp [List.map_cons, List.foldl_cons, ih, serviceArgs, BuilderStep.toOpt,
        ExtensionWithService, ExtensionWithName, ExtensionWithEndpoint]

/-- Running the option loop of `NewExtension` from any extension: the identity
and the schema are not touched. -/
theorem foldl_steps_fixed (T : String) (steps : List BuilderStep) (x : Extension) :
    ((steps.map (BuilderStep.toOpt T)).foldl (fun ext opt => opt ext) x).toAPIObject =
        x.toAPIObject ∧
    ((steps.map (BuilderStep.toOpt T)).foldl (fun ext opt => opt ext) x).ExtensionSchema =
        x.ExtensionSchema := by
  induction steps generalizing x with
  | nil => exact ⟨rfl, rfl⟩
  | cons s rest ih =>
    cases s <;>
      simp [List.map_cons, List.foldl_cons, ih, BuilderStep.toOpt,
        ExtensionWithService, ExtensionWithName, ExtensionWithEndpoint]

/-- C4 (as stated, refuted): applying `ExtensionWithService` twice is not the
same as applying it once, so `NewExtension(opt, opt)` differs from
`NewExtension(opt)` for the service option. -/
theorem C4_service_step_repeats :
    NewExtension "extension"
        [ExtensionWithService "service" "S1", ExtensionWithService "service" "S1"] ≠
      NewExtension "extension" [ExtensionWithService "service" "S1"] := by
  decide

/-- C4 (amended): `ExtensionWithName` and `ExtensionWithEndpoint` are idempotent
on every extension, and `NewExtension(opt, opt)` equals `NewExtension(opt)` for
these two options; `ExtensionWithService` is not idempotent: every application
appends one more service reference, so applying it twice leaves two new
references where applying it once leaves one. -/
theorem C4_builder_steps_idempotence (E T n u s : String) (x : Extension) :
    ExtensionWithName n (ExtensionWithName n x) = ExtensionWithName n x ∧
    ExtensionWithEndpoint u (ExtensionWithEndpoint u x) = ExtensionWithEndpoint u x ∧
    NewExtension E [ExtensionWithName n, ExtensionWithName n] =
      NewExtension E [ExtensionWithName n] ∧
    NewExtension E [ExtensionWithEndpoint u, ExtensionWithEndpoint u] =
      NewExtension E [ExtensionWithEndpoint u] ∧
    (ExtensionWithService T s x).ExtensionObjects =
      x.ExtensionObjects ++ [{ ID := s, Type_ := T }] ∧
    (ExtensionWithService T s (ExtensionWithService T s x)).ExtensionObjects =
      x.ExtensionObjects ++ [{ ID := s, Type_ := T }, { ID := s, Type_ := T }] ∧
    ExtensionWithService T s (ExtensionWithService T s x) ≠ ExtensionWithService T s x := by
  refine ⟨rfl, rfl, rfl, rfl, rfl, ?_, ?_⟩
  · simp [ExtensionWithService]
  · intro h
    have h2 := congrArg (fun e => e.ExtensionObjects.length) h
    simp [ExtensionWithService] at h2

/-- C5: last write wins per field. For every list of builder options, the name
of the built extension is the argument of the last `ExtensionWithName`, or
"PLACEHOLDER" when there is none; the endpoint is the argument of the last
`ExtensionWithEndpoint`, or "PLACEHOLDER" when there is none; and a step for
one field never changes the other field. -/
theorem C5_last_write_wins (E T : String) (steps : List BuilderStep) :
    (NewExtension E (steps.map (BuilderStep.toOpt T))).Name =
      (nameArgs steps).getLast?.getD "PLACEHOLDER" ∧
    (NewExtension E (steps.map (BuilderStep.toOpt T))).EndpointUrl =
      (endpointArgs steps).getLast?.getD "PLACEHOLDER" ∧
    (∀ (n : String) (x : Extension), (ExtensionWithName n x).EndpointUrl = x.EndpointUrl) ∧
    (∀ (u : String) (x : Extension), (ExtensionWithEndpoint u x).Name = x.Name) ∧
    (∀ (s : String) (x : Extension),
      (ExtensionWithService T s x).Name = x.Name ∧
      (ExtensionWithService T s x).EndpointUrl = x.EndpointUrl) := by
  refine ⟨?_, ?_, fun _ _ => rfl, fun _ _ => rfl, fun _ _ => ⟨rfl, rfl⟩⟩
  · exact foldl_steps_Name T steps _
  · exact foldl_steps_EndpointUrl T steps _

/-- C10: for every list of builder options, the attached objects of the built
extension are exactly the references `{ID: s, Type: ServiceResourceType}` of the
`ExtensionWithService(s)` options, in the order given and with repeats kept;
their number is the number of such options; the type stays
`ExtensionResourceType` and the schema stays the placeholder pair. -/
theorem C10_extension_objects (E T : String) (steps : List BuilderStep) :
    (NewExtension E (steps.map (BuilderStep.toOpt T))).ExtensionObjects =
      (serviceArgs steps).map (fun s => ({ ID := s, Type_ := T } : APIObject)) ∧
    (NewExtension E (steps.map (BuilderStep.toOpt T))).ExtensionObjects.length =
      (serviceArgs steps).length ∧
    (NewExtension E (steps.map (BuilderStep.toOpt T))).toAPIObject.Type_ = E ∧
    (NewExtension E (steps.map (BuilderStep.toOpt T))).ExtensionSchema =
      { toAPIObject := { Type_ := "PLACEHOLDER", ID := "PLACEHOLDER" } } := by
  have hobj := foldl_steps_ExtensionObjects T steps
    { toAPIObject := { Type_ := E }
      EndpointUrl := "PLACEHOLDER"
      Name := "PLACEHOLDER"
      ExtensionSchema := { toAPIObject := { Type_ := "PLACEHOLDER", ID := "PLACEHOLDER" } }
      ExtensionObjects := [] }
  have hfix := foldl_steps_fixed T steps
    { toAPIObject := { Type_ := E }
      EndpointUrl := "PLACEHOLDER"
      Name := "PLACEHOLDER"
      ExtensionSchema := { toAPIObject := { Type_ := "PLACEHOLDER", ID := "PLACEHOLDER" } }
      ExtensionObjects := [] }
  simp only [List.nil_append] at hobj
  refine ⟨hobj, ?_, ?_, hfix.2⟩
  · unfold NewExtension
    rw [hobj, List.length_map]
  · unfold NewExtension
    rw [hfix.1]

/-! ## Response unwrappers -/

/-- The decode error text never coincides with a missing-field error text. -/
theorem decode_msg_ne_missing_msg (s t : String) :
    "Could not decode JSON response: " ++ s ≠ "JSON response does not have " ++ t := by
  intro h
  have h2 := congrArg (fun u => u.data.head?) h
  simp [String.data_append] at h2

/-- A string followed by a question mark and a query is not the string. -/
theorem append_question_ne (p q : String) : p ++ "?" ++ q ≠ p := by
  intro h
  have h2 := congrArg String.length h
  have h3 : "?".length = 1 := rfl
  simp only [String.length_append, h3] at h2
  omega

/-- With a response that has a body, the rule unwrapper is all-or-nothing. -/
theorem getEscalationRuleFromResponse_atomic (d : Deserialize (GoMap EscalationRule))
    (r : Response) (b : String) (err : Option GoError) (hb : r.Body = some b) :
    (getEscalationRuleFromResponse d (some r) err).atomic := by
  unfold getEscalationRuleFromResponse
  simp only [hb]
  cases err with
  | some e => simp [Outcome.atomic]
  | none =>
    rcases hd : d (some r) [] with ⟨m, _ | dErr⟩
    · simp only
      cases hm : GoMap.get? m "escalation_rule" <;> simp [Outcome.atomic]
    · simp [Outcome.atomic]

/-- With a response that has a body, the policy unwrapper is all-or-nothing. -/
theorem getEscalationPolicyFromResponse_atomic (d : Deserialize (GoMap EscalationPolicy))
    (r : Response) (b : String) (err : Option GoError) (hb : r.Body = some b) :
    (getEscalationPolicyFromResponse d (some r) err).atomic := by
  unfold getEscalationPolicyFromResponse
  simp only [hb]
  cases err with
  | some e => simp [Outcome.atomic]
  | none =>
    rcases hd : d (some r) [] with ⟨m, _ | dErr⟩
    · simp only
      cases hm : GoMap.get? m "escalation_policy" <;> simp [Outcome.atomic]
    · simp [Outcome.atomic]

/-- C1: with no transport error and a body that decodes to a JSON object `m`,
each unwrapper returns the value stored under its root key with a nil error
when `m` has the key, and otherwise nil with the error
"JSON response does not have <root key> field". -/
theorem C1_root_key_lookup (dR : Deserialize (GoMap EscalationRule))
    (dP : Deserialize (GoMap EscalationPolicy)) (r : Response) (body : String)
    (mR : GoMap EscalationRule) (mP : GoMap EscalationPolicy)
    (hbody : r.Body = some body)
    (hR : dR (some r) [] = (mR, none)) (hP : dP (some r) [] = (mP, none)) :
    getEscalationRuleFromResponse dR (some r) none =
      (match mR.get? "escalation_rule" with
       | some t => .ret (some t) none
       | none =>
         .ret none (some ⟨"JSON response does not have escalation_rule field"⟩)) ∧
    getEscalationPolicyFromResponse dP (some r) none =
      (match mP.get? "escalation_policy" with
       | some t => .ret (some t) none
       | none =>
         .ret none (some ⟨"JSON response does not have escalation_policy field"⟩)) := by
  constructor
  · unfold getEscalationRuleFromResponse
    simp only [hbody, hR]
    cases mR.get? "escalation_rule" <;> rfl
  · unfold getEscalationPolicyFromResponse
    simp only [hbody, hP]
    cases mP.get? "escalation_policy" <;> rfl

/-- C1 at a concrete input: a body holding the rule under "escalation_rule" is
unwrapped to that rule, and a body holding a policy under "wrong_key" is
reported as lacking "escalation_policy". -/
theorem C1_root_key_lookup_witness :
    getEscalationRuleFromResponse
        (fun _ _ => ([("escalation_rule", { ID := "R1", Delay := 30 })], none))
        (some { StatusCode := 200, Body := some "body" }) none =
      .ret (some { ID := "R1", Delay := 30 }) none ∧
    getEscalationPolicyFromResponse
        (fun _ _ => ([("wrong_key", { Name := "ops" })], none))
        (some { StatusCode := 200, Body := some "body" }) none =
      .ret none (some ⟨"JSON response does not have escalation_policy field"⟩) :=
  C1_root_key_lookup
    (fun _ _ => ([("escalation_rule", { ID := "R1", Delay := 30 })], none))
    (fun _ _ => ([("wrong_key", { Name := "ops" })], none))
    { StatusCode := 200, Body := some "body" } "body"
    [("escalation_rule", { ID := "R1", Delay := 30 })] [("wrong_key", { Name := "ops" })]
    rfl rfl rfl

/-- C2 (the code at the failing input): handed a transport error together with
the nil response of a failed request, both unwrappers panic on the deferred
`resp.Body.Close()` instead of returning the error, and so do the four
operations built on them; only when the failed request still carries a response
is the error returned unchanged. -/
theorem C2_nil_response_panics (dR : Deserialize (GoMap EscalationRule))
    (dP : Deserialize (GoMap EscalationPolicy)) (d : Deserializer) (q : QueryPackage)
    (err : GoError) (escID id : String) (p : EscalationPolicy) (e : EscalationRule)
    (v : UrlValues) :
    getEscalationRuleFromResponse dR none (some err) = .panic nilDereference ∧
    getEscalationPolicyFromResponse dP none (some err) = .panic nilDereference ∧
    (CreateEscalationRule d (unreachableClient err) escID e).result =
      .panic nilDereference ∧
    (GetEscalationRule { q with Values := fun _ => .ok v } d (unreachableClient err)
      escID id none).result = .panic nilDereference ∧
    (UpdateEscalationRule d (unreachableClient err) escID id (some e)).result =
      .panic nilDereference ∧
    (UpdateEscalationPolicy d (unreachableClient err) id (some p)).result =
      .panic nilDereference ∧
    getEscalationRuleFromResponse dR (some { StatusCode := 503, Body := some "" })
      (some err) = .ret none (some err) ∧
    getEscalationPolicyFromResponse dP (some { StatusCode := 503, Body := some "" })
      (some err) = .ret none (some err) :=
  ⟨rfl, rfl, rfl, rfl, rfl, rfl, rfl, rfl⟩

/-- C6: with no transport error and a body the decoder rejects with `dErr`,
each unwrapper returns nil and the error
"Could not decode JSON response: " followed by the text of `dErr`; that error
is never a missing-field error. -/
theorem C6_decode_error (dR : Deserialize (GoMap EscalationRule))
    (dP : Deserialize (GoMap EscalationPolicy)) (r : Response) (body : String)
    (eR eP : GoError) (hbody : r.Body = some body)
    (hR : (dR (some r) []).2 = some eR) (hP : (dP (some r) []).2 = some eP) :
    getEscalationRuleFromResponse dR (some r) none =
      .ret none (some ⟨"Could not decode JSON response: " ++ eR.msg⟩) ∧
    getEscalationPolicyFromResponse dP (some r) none =
      .ret none (some ⟨"Could not decode JSON response: " ++ eP.msg⟩) ∧
    getEscalationRuleFromResponse dR (some r) none ≠
      .ret none (some ⟨"JSON response does not have escalation_rule field"⟩) ∧
    getEscalationPolicyFromResponse dP (some r) none ≠
      .ret none (some ⟨"JSON response does not have escalation_policy field"⟩) := by
  have h1 : getEscalationRuleFromResponse dR (some r) none =
      .ret none (some ⟨"Could not decode JSON response: " ++ eR.msg⟩) := by
    unfold getEscalationRuleFromResponse
    rcases hd : dR (some r) [] with ⟨m, x⟩
    rw [hd] at hR
    simp only at hR
    subst hR
    simp only [hbody, hd]
  have h2 : getEscalationPolicyFromResponse dP (some r) none =
      .ret none (some ⟨"Could not decode JSON response: " ++ eP.msg⟩) := by
    unfold getEscalationPolicyFromResponse
    rcases hd : dP (some r) [] with ⟨m, x⟩
    rw [hd] at hP
    simp only at hP
    subst hP
    simp only [hbody, hd]
  refine ⟨h1, h2, ?_, ?_⟩
  · rw [h1]
    intro h
    injection h with _ h
    injection h with h
    injection h with h
    exact decode_msg_ne_missing_msg eR.msg "escalation_rule field" h
  · rw [h2]
    intro h
    injection h with _ h
    injection h with h
    injection h with h
    exact decode_msg_ne_missing_msg eP.msg "escalation_policy field" h

/-- C6 at a concrete input: a body the decoder rejects with "unexpected EOF". -/
theorem C6_decode_error_witness :
    getEscalationRuleFromResponse (fun _ dest => (dest, some ⟨"unexpected EOF"⟩))
        (some { StatusCode := 200, Body := some "body" }) none =
      .ret none (some ⟨"Could not decode JSON response: unexpected EOF"⟩) :=
  (C6_decode_error (fun _ dest => (dest, some ⟨"unexpected EOF"⟩))
    (fun _ dest => (dest, some ⟨"unexpected EOF"⟩))
    { StatusCode := 200, Body := some "body" } "body" ⟨"unexpected EOF"⟩ ⟨"unexpected EOF"⟩
    rfl rfl rfl).1


/-! ## Operations -/

/-- C3 (as stated, refuted): when the body of the rule listing is malformed
JSON, `ListEscalationRules` hands back a non-nil result together with a non-nil
error. -/
theorem C3_list_returns_value_with_error :
    (ListEscalationRules rejectingDeserializer (answeringClient "x" {}) "P1").result =
        .ret (some {}) (some ⟨"unexpected end of JSON input"⟩) ∧
      ¬ (ListEscalationRules rejectingDeserializer (answeringClient "x" {}) "P1").result.atomic :=
  ⟨rfl, fun h => h⟩

/-- C3 (amended): for a transport that answers every request with a response
that has a body, and a generic client that hands back an escalation policy
whenever it reports no error, the six single-object operations are
all-or-nothing (nil error and non-nil value, or non-nil error and nil value);
the two list operations return nil and the error on a transport error, and
otherwise always a non-nil result together with whatever error the decoder
reports. -/
theorem C3_atomic_amended {ρ : Type} (T : String) (d : Deserializer) (q : QueryPackage)
    (c : Client ρ)
    (hT : ∀ call, ∃ r b, (c.transport call).1 = some r ∧ r.Body = some b)
    (hCreate : ∀ x, (c.CreateResource x).2 = none →
      ∃ p, (c.CreateResource x).1 = .escalationPolicy p)
    (hGet : ∀ t id opts, (c.GetResource t id opts).2 = none →
      ∃ p, (c.GetResource t id opts).1 = .escalationPolicy p) :
    (∀ e, (CreateEscalationPolicy c e).atomic) ∧
    (∀ id opts, (GetEscalationPolicy T c id opts).atomic) ∧
    (∀ id p, (UpdateEscalationPolicy d c id (some p)).result.atomic) ∧
    (∀ escID e, (CreateEscalationRule d c escID e).result.atomic) ∧
    (∀ escID id o, (GetEscalationRule q d c escID id o).result.atomic) ∧
    (∀ escID id e, (UpdateEscalationRule d c escID id (some e)).result.atomic) ∧
    (∀ opts,
      ListEscalationPolicies T d c opts =
        (match (c.ListResources T opts).2 with
         | some err => .ret none (some err)
         | none =>
           .ret (some (d.listPolicies (c.ListResources T opts).1 {}).1)
             (d.listPolicies (c.ListResources T opts).1 {}).2)) ∧
    (∀ escID,
      (ListEscalationRules d c escID).result =
        (match (c.get ("/escalation_policies/" ++ escID ++ "/escalation_rules")).2.2 with
         | some err => .ret none (some err)
         | none =>
           .ret
             (some (d.listRules
               (c.get ("/escalation_policies/" ++ escID ++ "/escalation_rules")).2.1 {}).1)
             (d.listRules
               (c.get ("/escalation_policies/" ++ escID ++ "/escalation_rules")).2.1 {}).2)) := by
  refine ⟨?_, ?_, ?_, ?_, ?_, ?_, ?_, ?_⟩
  · intro e
    unfold CreateEscalationPolicy
    have h := hCreate (.escalationPolicy e)
    rcases hc : c.CreateResource (.escalationPolicy e) with ⟨res, _ | err⟩
    · rw [hc] at h
      obtain ⟨p, hp⟩ := h rfl
      simp only at hp
      subst hp
      simp [Outcome.atomic]
    · simp [Outcome.atomic]
  · intro id opts
    unfold GetEscalationPolicy
    have h := hGet T id opts
    rcases hc : c.GetResource T id opts with ⟨res, _ | err⟩
    · rw [hc] at h
      obtain ⟨p, hp⟩ := h rfl
      simp only at hp
      subst hp
      simp [Outcome.atomic]
    · simp [Outcome.atomic]
  · intro id p
    obtain ⟨r, b, hr, hb⟩ := hT ⟨.PUT, escPath ++ "/" ++ id,
      some (.policies (GoMap.set [] "escalation_policy" p)), none⟩
    simp only [UpdateEscalationPolicy, Client.put, hr]
    exact getEscalationPolicyFromResponse_atomic _ r b _ hb
  · intro escID e
    obtain ⟨r, b, hr, hb⟩ := hT ⟨.POST, escPath ++ "/" ++ escID ++ "/escalation_rules",
      some (.rules (GoMap.set [] "escalation_rule" e)), none⟩
    simp only [CreateEscalationRule, Client.post, hr]
    exact getEscalationRuleFromResponse_atomic _ r b _ hb
  · intro escID id o
    unfold GetEscalationRule
    cases hq : q.Values o with
    | error err => simp [Outcome.atomic]
    | ok v =>
      obtain ⟨r, b, hr, hb⟩ := hT ⟨.GET,
        escPath ++ "/" ++ escID ++ "/escalation_rules/" ++ id ++ "?" ++ q.Encode v, none, none⟩
      simp only [Client.get, hr]
      exact getEscalationRuleFromResponse_atomic _ r b _ hb
  · intro escID id e
    obtain ⟨r, b, hr, hb⟩ := hT ⟨.PUT, escPath ++ "/" ++ escID ++ "/escalation_rules/" ++ id,
      some (.rules (GoMap.set [] "escalation_rule" e)), none⟩
    simp only [UpdateEscalationRule, Client.put, hr]
    exact getEscalationRuleFromResponse_atomic _ r b _ hb
  · intro opts
    unfold ListEscalationPolicies
    rcases hc : c.ListResources T opts with ⟨resp, _ | err⟩ <;> rfl
  · intro escID
    unfold ListEscalationRules
    have hpath : escPath ++ "/" ++ escID ++ "/escalation_rules" =
        "/escalation_policies/" ++ escID ++ "/escalation_rules" := rfl
    rw [hpath]
    rcases hc : (c.get ("/escalation_policies/" ++ escID ++ "/escalation_rules")).2 with
      ⟨resp, _ | err⟩ <;> simp only [hc]

/-- C3 (amended) at a concrete client: every request is answered with status
200 and the body "x", which the decoder rejects. -/
theorem C3_atomic_amended_witness :
    (UpdateEscalationRule rejectingDeserializer (answeringClient "x" {}) "P1" "R1"
        (some { ID := "R1" })).result.atomic ∧
      ListEscalationPolicies "escalation_policy" rejectingDeserializer
          (answeringClient "x" {}) [] =
        .ret (some {}) (some ⟨"unexpected end of JSON input"⟩) :=
  have h := C3_atomic_amended "escalation_policy" rejectingDeserializer
    { Values := fun _ => .ok [], Encode := fun _ => "" } (answeringClient "x" {})
    (fun _ => ⟨_, _, rfl, rfl⟩) (fun _ _ => ⟨_, rfl⟩) (fun _ _ _ _ => ⟨_, rfl⟩)
  ⟨h.2.2.2.2.2.1 "P1" "R1" { ID := "R1" }, h.2.2.2.2.2.2.1 []⟩

/-- C8: the body sent by `UpdateEscalationPolicy` is a map with the single
entry "escalation_policy" ↦ the given policy; the body sent by
`CreateEscalationRule` and by `UpdateEscalationRule` is a map with the single
entry "escalation_rule" ↦ the given rule, targets in the given order. The
operations only read the payload they are given. -/
theorem C8_request_envelopes {ρ : Type} (d : Deserializer) (c : Client ρ)
    (escID id : String) (p : EscalationPolicy) (e : EscalationRule) :
    (UpdateEscalationPolicy d c id (some p)).calls.map (fun call => call.payload) =
      [some (.policies [("escalation_policy", p)])] ∧
    (CreateEscalationRule d c escID e).calls.map (fun call => call.payload) =
      [some (.rules [("escalation_rule", e)])] ∧
    (UpdateEscalationRule d c escID id (some e)).calls.map (fun call => call.payload) =
      [some (.rules [("escalation_rule", e)])] ∧
    (GoMap.set [] "escalation_policy" p).length = 1 ∧
    (GoMap.set [] "escalation_policy" p).get? "escalation_policy" = some p ∧
    (GoMap.set [] "escalation_rule" e).length = 1 ∧
    (GoMap.set [] "escalation_rule" e).get? "escalation_rule" = some e ∧
    ((GoMap.set [] "escalation_rule" e).get? "escalation_rule").map (fun t => t.Targets) =
      some e.Targets := by
  refine ⟨rfl, rfl, rfl, rfl, ?_, rfl, ?_, ?_⟩ <;> simp [GoMap.set, GoMap.get?]


/-! ## Option encoding -/

/-- A `brackets` option elided when empty adds one parameter per element under
the bracketed key. -/
theorem fieldValues_brackets (tag name : String) (xs : List String)
    (h : parseTag tag = (name, ["omitempty", "brackets"])) :
    fieldValues ⟨tag, .strs xs⟩ = xs.map (fun v => (name ++ "[]", v)) := by
  cases xs with
  | nil => simp [fieldValues, h, FieldValue.isEmpty]
  | cons x rest => simp [fieldValues, h, FieldValue.isEmpty]

/-- A text option elided when empty adds its one parameter when it is set. -/
theorem fieldValues_str (tag name s : String) (h : parseTag tag = (name, ["omitempty"])) :
    fieldValues ⟨tag, .str s⟩ = if s = "" then [] else [(name, s)] := by
  by_cases hs : s = "" <;> simp [fieldValues, h, FieldValue.isEmpty, FieldValue.valueString, hs]

/-- A numeric option elided when empty adds its one parameter when it is set. -/
theorem fieldValues_uint (tag name : String) (n : Nat)
    (h : parseTag tag = (name, ["omitempty"])) :
    fieldValues ⟨tag, .uint n⟩ = if n = 0 then [] else [(name, toString n)] := by
  by_cases hn : n = 0 <;> simp [fieldValues, h, FieldValue.isEmpty, FieldValue.valueString, hn]

/-- A boolean option elided when empty adds its one parameter when it is set. -/
theorem fieldValues_bool (tag name : String) (b : Bool)
    (h : parseTag tag = (name, ["omitempty"])) :
    fieldValues ⟨tag, .bool b⟩ = if b = true then [(name, "true")] else [] := by
  cases b <;> simp [fieldValues, h, FieldValue.isEmpty, FieldValue.valueString]

/-- No key is below itself. -/
theorem keyLT_irrefl (a : List Char) : keyLT a a = false := by
  induction a with
  | nil => rfl
  | cons c cs ih => simp [keyLT, ih]

/-- The key order is transitive. -/
theorem keyLT_trans (a b c : List Char) (h1 : keyLT a b = true) (h2 : keyLT b c = true) :
    keyLT a c = true := by
  induction a generalizing b c with
  | nil =>
    cases b with
    | nil => simp [keyLT] at h1
    | cons y ys =>
      cases c with
      | nil => simp [keyLT] at h2
      | cons z zs => simp [keyLT]
  | cons x xs ih =>
    cases b with
    | nil => simp [keyLT] at h1
    | cons y ys =>
      cases c with
      | nil => simp [keyLT] at h2
      | cons z zs =>
        simp only [keyLT, Bool.or_eq_true, Bool.and_eq_true, decide_eq_true_eq] at h1 h2 ⊢
        rcases h1 with h1 | ⟨h1, h1'⟩
        · rcases h2 with h2 | ⟨h2, _⟩
          · left; omega
          · left; omega
        · rcases h2 with h2 | ⟨h2, h2'⟩
          · left; omega
          · right; exact ⟨by omega, ih ys zs h1' h2'⟩

/-- Inserting adds the new parameter and nothing else. -/
theorem mem_insertByKey (p r : String × String) (l : UrlValues) (h : r ∈ insertByKey p l) :
    r = p ∨ r ∈ l := by
  induction l with
  | nil => simpa [insertByKey] using h
  | cons q rest ih =>
    unfold insertByKey at h
    split at h
    · simpa using h
    · rcases List.mem_cons.mp h with h | h
      · exact Or.inr (by simp [h])
      · rcases ih h with h | h
        · exact Or.inl h
        · exact Or.inr (List.mem_cons_of_mem _ h)

/-- Inserting into a key-sorted list keeps it key-sorted. -/
theorem insertByKey_sorted (p : String × String) (l : UrlValues) (h : KeySorted l) :
    KeySorted (insertByKey p l) := by
  induction l with
  | nil => simp [insertByKey, KeySorted]
  | cons q rest ih =>
    have hq : ∀ r ∈ rest, keyLT r.1.data q.1.data = false := (List.pairwise_cons.mp h).1
    have hrest : KeySorted rest := (List.pairwise_cons.mp h).2
    unfold insertByKey
    split
    · rename_i hlt
      refine List.pairwise_cons.mpr ⟨?_, h⟩
      intro r hr
      cases hrp : keyLT r.1.data p.1.data with
      | false => rfl
      | true =>
        have hrq := keyLT_trans _ _ _ hrp hlt
        rcases List.mem_cons.mp hr with hr | hr
        · subst hr
          rw [keyLT_irrefl] at hrq
          exact absurd hrq (by simp)
        · rw [hq r hr] at hrq
          exact absurd hrq (by simp)
    · rename_i hlt
      refine List.pairwise_cons.mpr ⟨?_, ih hrest⟩
      intro r hr
      rcases mem_insertByKey p r rest hr with hr | hr
      · subst hr
        simpa using hlt
      · exact hq r hr

/-- Inserting under one key leaves the parameters of every other key alone. -/
theorem filter_insertByKey_ne (k : String) (p : String × String) (l : UrlValues)
    (h : p.1 ≠ k) :
    (insertByKey p l).filter (fun x => x.1 = k) = l.filter (fun x => x.1 = k) := by
  induction l with
  | nil => simp [insertByKey, h]
  | cons q rest ih =>
    unfold insertByKey
    split
    · simp [List.filter_cons, h]
    · simp only [List.filter_cons, ih]

/-- Inserting under a key puts the parameter after the ones already there. -/
theorem filter_insertByKey_eq (p : String × String) (l : UrlValues) (h : KeySorted l) :
    (insertByKey p l).filter (fun x => x.1 = p.1) = l.filter (fun x => x.1 = p.1) ++ [p] := by
  induction l with
  | nil => simp [insertByKey]
  | cons q rest ih =>
    have hq : ∀ r ∈ rest, keyLT r.1.data q.1.data = false := (List.pairwise_cons.mp h).1
    have hrest : KeySorted rest := (List.pairwise_cons.mp h).2
    unfold insertByKey
    split
    · rename_i hlt
      have hnone : (q :: rest).filter (fun x => x.1 = p.1) = [] := by
        rw [List.filter_eq_nil_iff]
        intro r hr
        simp only [decide_eq_true_eq]
        intro hrp
        rw [← hrp] at hlt
        rcases List.mem_cons.mp hr with hr | hr
        · subst hr
          rw [keyLT_irrefl] at hlt
          exact absurd hlt (by simp)
        · rw [hq r hr] at hlt
          exact absurd hlt (by simp)
      rw [hnone]
      simp [List.filter_cons, hnone]
    · simp only [List.filter_cons, ih hrest]
      split <;> simp

/-- The sorting loop keeps the list key-sorted and each key in arrival order. -/
theorem foldl_insertByKey (k : String) (v acc : UrlValues) (h : KeySorted acc) :
    KeySorted (v.foldl (fun acc p => insertByKey p acc) acc) ∧
    (v.foldl (fun acc p => insertByKey p acc) acc).filter (fun x => x.1 = k) =
      acc.filter (fun x => x.1 = k) ++ v.filter (fun x => x.1 = k) := by
  induction v generalizing acc with
  | nil => simp [h]
  | cons p rest ih =>
    have h2 := ih (insertByKey p acc) (insertByKey_sorted p acc h)
    refine ⟨h2.1, ?_⟩
    rw [List.foldl_cons, h2.2]
    by_cases hk : p.1 = k
    · subst hk
      rw [filter_insertByKey_eq p acc h]
      simp [List.filter_cons]
    · rw [filter_insertByKey_ne k p acc hk]
      simp [List.filter_cons, hk]

/-- Sorting by key keeps the values of each key in the order they were added. -/
theorem sortByKey_filter (k : String) (v : UrlValues) :
    (sortByKey v).filter (fun x => x.1 = k) = v.filter (fun x => x.1 = k) := by
  have h := (foldl_insertByKey k v [] List.Pairwise.nil).2
  simpa [sortByKey] using h

/-- C7: for every `ListEscalationPoliciesOptions` value the parameters are: the
query when set, then one `user_ids[]` parameter per element of `UserIDs` in
order, one `team_ids[]` parameter per element of `TeamIDs` in order, one
`include[]` parameter per element of `Includes` in order, then the sort key and
the pagination options when set; an empty option adds no parameter. The options
with `TeamIDs = ["t1","t2"]` and everything else empty are written exactly
`team_ids%5B%5D=t1&team_ids%5B%5D=t2`. The `Includes` of
`GetEscalationRuleOptions` are encoded the same way. Writing the parameters out
groups them by key and keeps the values of each key in the order given. -/
theorem C7_option_encoding (o : ListEscalationPoliciesOptions) (g : GetEscalationRuleOptions) :
    queryValues o.urlFields =
      (if o.Query = "" then [] else [("query", o.Query)]) ++
      o.UserIDs.map (fun v => ("user_ids[]", v)) ++
      o.TeamIDs.map (fun v => ("team_ids[]", v)) ++
      o.Includes.map (fun v => ("include[]", v)) ++
      (if o.SortBy = "" then [] else [("sort_by", o.SortBy)]) ++
      (if o.toAPIListObject.Limit = 0 then []
        else [("limit", toString o.toAPIListObject.Limit)]) ++
      (if o.toAPIListObject.Offset = 0 then []
        else [("offset", toString o.toAPIListObject.Offset)]) ++
      (if o.toAPIListObject.More = true then [("more", "true")] else []) ++
      (if o.toAPIListObject.Total = 0 then []
        else [("total", toString o.toAPIListObject.Total)]) ∧
    queryValues ({} : ListEscalationPoliciesOptions).urlFields = [] ∧
    queryValues ({ TeamIDs := ["t1", "t2"] } : ListEscalationPoliciesOptions).urlFields =
      [("team_ids[]", "t1"), ("team_ids[]", "t2")] ∧
    Encode (queryValues ({ TeamIDs := ["t1", "t2"] } : ListEscalationPoliciesOptions).urlFields) =
      "team_ids%5B%5D=t1&team_ids%5B%5D=t2" ∧
    query.Values (some g) = .ok (g.Includes.map (fun v => ("include[]", v))) ∧
    query.Values (some {}) = .ok [] ∧
    query.Encode [] = "" ∧
    (∀ k, (sortByKey (queryValues o.urlFields)).filter (fun x => x.1 = k) =
      (queryValues o.urlFields).filter (fun x => x.1 = k)) ∧
    (∀ k, (sortByKey (queryValues g.urlFields)).filter (fun x => x.1 = k) =
      (queryValues g.urlFields).filter (fun x => x.1 = k)) := by
  have hq : parseTag "query,omitempty" = ("query", ["omitempty"]) := by decide
  have hu : parseTag "user_ids,omitempty,brackets" = ("user_ids", ["omitempty", "brackets"]) := by
    decide
  have ht : parseTag "team_ids,omitempty,brackets" = ("team_ids", ["omitempty", "brackets"]) := by
    decide
  have hi : parseTag "include,omitempty,brackets" = ("include", ["omitempty", "brackets"]) := by
    decide
  have hs : parseTag "sort_by,omitempty" = ("sort_by", ["omitempty"]) := by decide
  have hl : parseTag "limit,omitempty" = ("limit", ["omitempty"]) := by decide
  have ho : parseTag "offset,omitempty" = ("offset", ["omitempty"]) := by decide
  have hm : parseTag "more,omitempty" = ("more", ["omitempty"]) := by decide
  have htot : parseTag "total,omitempty" = ("total", ["omitempty"]) := by decide
  have hub : "user_ids" ++ "[]" = "user_ids[]" := by decide
  have htb : "team_ids" ++ "[]" = "team_ids[]" := by decide
  have hib : "include" ++ "[]" = "include[]" := by decide
  refine ⟨?_, by decide, by decide, by decide, ?_, ?_, by decide,
    fun k => sortByKey_filter k _, fun k => sortByKey_filter k _⟩
  · simp only [ListEscalationPoliciesOptions.urlFields, APIListObject.urlFields,
      List.cons_append, List.nil_append, queryValues, List.append_nil,
      fieldValues_str _ _ _ hq, fieldValues_brackets _ _ _ hu, fieldValues_brackets _ _ _ ht,
      fieldValues_brackets _ _ _ hi, fieldValues_str _ _ _ hs, fieldValues_uint _ _ _ hl,
      fieldValues_uint _ _ _ ho, fieldValues_bool _ _ _ hm, fieldValues_uint _ _ _ htot,
      hub, htb, hib, List.append_assoc]
  · simp only [query, GetEscalationRuleOptions.urlFields, queryValues, List.append_nil,
      fieldValues_brackets _ _ _ hi, hib]
  · simp only [query, GetEscalationRuleOptions.urlFields, queryValues, List.append_nil,
      fieldValues_brackets _ _ _ hi, List.map_nil]

/-! ## Request targets -/

/-- C9 (as stated, refuted): with empty options the target of
`GetEscalationRule` is the rule path followed by "?", not the bare path. -/
theorem C9_get_rule_target_has_separator :
    (GetEscalationRule query rejectingDeserializer (answeringClient "x" {}) "P1" "R1"
        (some {})).calls.map (fun call => (call.verb, call.path)) =
      [(Verb.GET, "/escalation_policies/P1/escalation_rules/R1?")] ∧
    (GetEscalationRule query rejectingDeserializer (answeringClient "x" {}) "P1" "R1"
        (some {})).calls.map (fun call => (call.verb, call.path)) ≠
      [(Verb.GET, "/escalation_policies/P1/escalation_rules/R1")] := by
  decide

/-- C9 (amended): `UpdateEscalationPolicy` issues PUT to
"/escalation_policies/" + id; `CreateEscalationRule` issues POST and
`ListEscalationRules` issues GET to
"/escalation_policies/" + escID + "/escalation_rules"; `UpdateEscalationRule`
issues PUT and `DeleteEscalationRule` issues DELETE to
"/escalation_policies/" + escID + "/escalation_rules/" + id;
`GetEscalationRule` issues GET to that last path followed by "?" and the
encoded options, which is never the bare path, and is the path followed by a
bare "?" when the options are empty or nil. Each operation issues exactly one
request. -/
theorem C9_request_targets {ρ : Type} (q : QueryPackage) (d : Deserializer) (c : Client ρ)
    (escID id : String) (p : EscalationPolicy) (e : EscalationRule)
    (o : Option GetEscalationRuleOptions) :
    (UpdateEscalationPolicy d c id (some p)).calls.map (fun call => (call.verb, call.path)) =
      [(Verb.PUT, "/escalation_policies/" ++ id)] ∧
    (CreateEscalationRule d c escID e).calls.map (fun call => (call.verb, call.path)) =
      [(Verb.POST, "/escalation_policies/" ++ escID ++ "/escalation_rules")] ∧
    (ListEscalationRules d c escID).calls.map (fun call => (call.verb, call.path)) =
      [(Verb.GET, "/escalation_policies/" ++ escID ++ "/escalation_rules")] ∧
    (UpdateEscalationRule d c escID id (some e)).calls.map
        (fun call => (call.verb, call.path)) =
      [(Verb.PUT, "/escalation_policies/" ++ escID ++ "/escalation_rules/" ++ id)] ∧
    (DeleteEscalationRule c escID id).calls.map (fun call => (call.verb, call.path)) =
      [(Verb.DELETE, "/escalation_policies/" ++ escID ++ "/escalation_rules/" ++ id)] ∧
    (GetEscalationRule q d c escID id o).calls.map (fun call => (call.verb, call.path)) =
      (match q.Values o with
       | .ok v =>
         [(Verb.GET, "/escalation_policies/" ++ escID ++ "/escalation_rules/" ++ id ++ "?" ++
            q.Encode v)]
       | .error _ => []) ∧
    (∀ v, "/escalation_policies/" ++ escID ++ "/escalation_rules/" ++ id ++ "?" ++ q.Encode v ≠
      "/escalation_policies/" ++ escID ++ "/escalation_rules/" ++ id) ∧
    (GetEscalationRule query d c escID id (some {})).calls.map
        (fun call => (call.verb, call.path)) =
      [(Verb.GET, "/escalation_policies/" ++ escID ++ "/escalation_rules/" ++ id ++ "?")] ∧
    (GetEscalationRule query d c escID id none).calls.map
        (fun call => (call.verb, call.path)) =
      [(Verb.GET, "/escalation_policies/" ++ escID ++ "/escalation_rules/" ++ id ++ "?")] := by
  refine ⟨rfl, rfl, ?_, rfl, rfl, ?_, ?_, ?_, ?_⟩
  · unfold ListEscalationRules
    rcases hc : (c.get (escPath ++ "/" ++ escID ++ "/escalation_rules")).2 with
      ⟨resp, _ | err⟩ <;> simp only [hc] <;> rfl
  · unfold GetEscalationRule
    cases q.Values o <;> rfl
  · intro v
    exact append_question_ne _ _
  · have h : query.Values (some ({} : GetEscalationRuleOptions)) = .ok [] := by
      simp only [query, GetEscalationRuleOptions.urlFields, queryValues, List.append_nil]
      rfl
    have h2 : query.Encode [] = "" := by decide
    unfold GetEscalationRule
    simp only [h, h2, String.append_empty]
    rfl
  · have h : query.Values none = .ok [] := rfl
    have h2 : query.Encode [] = "" := by decide
    unfold GetEscalationRule
    simp only [h, h2, String.append_empty]
    rfl

end Pagerduty
